import Mathlib

set_option maxHeartbeats 1000000
set_option maxRecDepth 100000

/-!
Shallow embedding of the numerical pipeline in `icn_m1/M1_tf_interpolation_BIDS.py`
(and its driver `icn_m1/pipeline.py`): the distance-weighted spatial projection
(`calc_projection_matrix`), the active-grid-point mask (`get_active_grid_points`),
the hard-coded 94-row projected-data layout (`write_proj_data`), the trailing-median
normalization loop of `analysis_real_time`, the time-lag feature assembler
(`append_time_dim`), the notch-filter frequency list of `apply_filter`, and the
per-grid-point prediction loop (`predict`).

Float special values matter in this code (numpy produces `inf` and `nan` on division
by zero), so divisions are modelled with an extended-value type `FVal` carrying
finite values, signed infinities and NaN, over an arbitrary linear ordered field.
Geometry (Euclidean distances) is modelled over `ℝ`; concrete evaluations use `ℚ`.
-/

/-- IEEE-style extended value over an ordered field: finite, +inf, -inf, or NaN.
Models the float special values numpy produces on division by zero. -/
inductive FVal (F : Type) where
  | fin (x : F)
  | pinf
  | ninf
  | nan
deriving DecidableEq

variable {F : Type} [LinearOrderedField F]

/-- IEEE addition on extended values (the cases the code exercises). -/
def fadd : FVal F → FVal F → FVal F
  | .nan, _ => .nan
  | _, .nan => .nan
  | .pinf, .ninf => .nan
  | .ninf, .pinf => .nan
  | .pinf, _ => .pinf
  | _, .pinf => .pinf
  | .ninf, _ => .ninf
  | _, .ninf => .ninf
  | .fin a, .fin b => .fin (a + b)

/-- IEEE division on extended values (the cases the code exercises):
`inf / inf = nan`, `finite / inf = 0`, `finite / 0` is a signed infinity
(or NaN for `0 / 0`). -/
def fdivV : FVal F → FVal F → FVal F
  | .nan, _ => .nan
  | _, .nan => .nan
  | .pinf, .pinf => .nan
  | .pinf, .ninf => .nan
  | .ninf, .pinf => .nan
  | .ninf, .ninf => .nan
  | .pinf, .fin b => if 0 ≤ b then .pinf else .ninf
  | .ninf, .fin b => if 0 ≤ b then .ninf else .pinf
  | .fin _, .pinf => .fin 0
  | .fin _, .ninf => .fin 0
  | .fin a, .fin b =>
      if b = 0 then (if a = 0 then .nan else if 0 < a then .pinf else .ninf)
      else .fin (a / b)

/-- numpy `1 / d` as a float: `1 / 0.0 = +inf`. -/
def frecipF (d : F) : FVal F := if d = 0 then .pinf else .fin (1 / d)

/-- numpy `np.sum` over extended values. -/
def fsum (l : List (FVal F)) : FVal F := l.foldr fadd (.fin 0)

/-- Division of two finite floats with IEEE results (`0/0 = nan`, `x/0 = ±inf`). -/
def fdivF (a b : F) : FVal F := fdivV (.fin a) (.fin b)

/-- Insertion into an ascending sorted list. -/
def insert_sorted (x : F) : List F → List F
  | [] => [x]
  | y :: ys => if x ≤ y then x :: y :: ys else y :: insert_sorted x ys

/-- Insertion sort, ascending; models the sort inside `np.median`. -/
def sort_list : List F → List F
  | [] => []
  | x :: xs => insert_sorted x (sort_list xs)

/-- `np.median`: middle element of the sorted data for odd length, mean of the two
middle elements for even length. -/
def npMedian (l : List F) : F :=
  if l.length % 2 = 1 then (sort_list l).getD (l.length / 2) 0
  else ((sort_list l).getD (l.length / 2 - 1) 0 + (sort_list l).getD (l.length / 2) 0) / 2

/-- The integers `a, a+1, ..., b-1` (an `np.arange` over integers). -/
def arange_int (a b : ℤ) : List ℤ := (List.range (b - a).toNat).map (fun (i : ℕ) => a + (i : ℤ))

/-- `np.arange(start, stop, step)` for rationals with positive step:
`start + step*i` for `i = 0, ..., ⌈(stop-start)/step⌉ - 1`. -/
def np_arange (start stop step : ℚ) : List ℚ :=
  (List.range (⌈(stop - start) / step⌉).toNat).map (fun (i : ℕ) => start + step * (i : ℚ))

/-- The `freqs` argument of the notch-filter call in `apply_filter`
(M1_tf_interpolation_BIDS.py line 65): `np.arange(line_noise, 4*line_noise, line_noise)`. -/
def apply_filter_notch_freqs (line_noise : ℚ) : List ℚ :=
  np_arange line_noise (4 * line_noise) line_noise

/-- A 3D point (an electrode coordinate or a grid point). -/
abbrev Pt : Type := ℝ × ℝ × ℝ

/-- Euclidean distance: `np.linalg.norm(grid[:, project_point] - coord_arr[loc_][channel, :])`
(lines 172-173). -/
noncomputable def dist3 (p q : Pt) : ℝ :=
  Real.sqrt ((p.1 - q.1) ^ 2 + (p.2.1 - q.2.1) ^ 2 + (p.2.2 - q.2.2) ^ 2)

/-- Lines 168-173: the `(grid_points × channels)` distance matrix of one structure. -/
noncomputable def distance_matrix (grid : List Pt) (coords : List Pt) : List (List ℝ) :=
  grid.map (fun gp => coords.map (fun ch => dist3 gp ch))

/-- Lines 176-184, one grid point: `used_channels = np.where(d < max_dist)`,
`sum_distances = np.sum(1 / rec_distances)`, and each used channel gets weight
`(1 / d) / sum_distances`; unused channels keep the `np.zeros` value 0. -/
def calc_proj_row (drow : List F) (max_dist : F) : List (FVal F) :=
  drow.map (fun d =>
    if d < max_dist
    then fdivV (frecipF d)
      (fsum ((drow.filter (fun x => decide (x < max_dist))).map frecipF))
    else .fin 0)

/-- Lines 151-154: the session's grid halves (right hemisphere uses `grid_[2:]`,
left uses `grid_[:2]`). -/
def grid_session_of (grid_ : List (List Pt)) (sess_right : Bool) : List (List Pt) :=
  if sess_right then grid_.drop 2 else grid_.take 2

/-- Lines 134-187: `calc_projection_matrix`. `coord_arr` is the per-structure
(ECOG, STN) optional channel-coordinate lists, `grid_` the four grids
(ECOG left, STN left, ECOG right, STN right); the right-hemisphere flag selects
the grid halves, location 0 uses `max_dist_ECOG` and location 1 `max_dist_STN`;
a missing structure stays `none`. -/
noncomputable def calc_projection_matrix (coord_arr : Option (List Pt) × Option (List Pt))
    (grid_ : List (List Pt)) (sess_right : Bool) (max_dist_ECOG max_dist_STN : ℝ) :
    Option (List (List (FVal ℝ))) × Option (List (List (FVal ℝ))) :=
  let grid_session := grid_session_of grid_ sess_right
  (match coord_arr.1 with
   | none => none
   | some cs => some ((distance_matrix (grid_session.getD 0 []) cs).map
       (fun drow => calc_proj_row drow max_dist_ECOG)),
   match coord_arr.2 with
   | none => none
   | some cs => some ((distance_matrix (grid_session.getD 1 []) cs).map
       (fun drow => calc_proj_row drow max_dist_STN)))

/-- Char-list prefix test (used to model Python's substring operator). -/
def starts_with_chars : List Char → List Char → Bool
  | [], _ => true
  | _ :: _, [] => false
  | a :: as, b :: bs => (a == b) && starts_with_chars as bs

/-- Char-list substring test. -/
def contains_chars (sub : List Char) : List Char → Bool
  | [] => sub.isEmpty
  | b :: bs => starts_with_chars sub (b :: bs) || contains_chars sub bs

/-- Python's `sub in s` on strings. -/
def has_sub (sub : String) (s : String) : Bool := contains_chars sub.toList s.toList

/-- Lines 220-225 (and 260-269): a contralateral label channel exists when some
name in `mov_channel` contains "LEFT" for a right session, "RIGHT" for a left one. -/
def Con_label_of (sess_right : Bool) (mov_channel : List String) : Bool :=
  if sess_right then decide ((mov_channel.filter (fun ch => has_sub "LEFT" ch)).length > 0)
  else decide ((mov_channel.filter (fun ch => has_sub "RIGHT" ch)).length > 0)

/-- Lines 230-235 (and 278-287): an ipsilateral label channel exists when some name
in `mov_channel` contains "LEFT" for a left session, "RIGHT" for a right one. -/
def Ips_label_of (sess_right : Bool) (mov_channel : List String) : Bool :=
  if sess_right then decide ((mov_channel.filter (fun ch => has_sub "RIGHT" ch)).length > 0)
  else decide ((mov_channel.filter (fun ch => has_sub "LEFT" ch)).length > 0)

/-- `np.nonzero(np.sum(M, axis=1))[0]`: indices of rows with nonzero sum. -/
def nonzero_rows (M : List (List F)) : List ℕ :=
  (List.range M.length).filter (fun i => decide ((M.getD i []).sum ≠ 0))

/-- Lines 207-247: `get_active_grid_points`. NOTE line 216 sets
`mov_channel = np.array(ch_names)` — ALL channel names, not `ch_names[ind_MOV]`;
the `ind_MOV` parameter is never used. `grid_len` carries the four grid sizes
(`grid_[k].shape[1]`); the result is the 0/1 activity value at index `i`. -/
def get_active_grid_points (sess_right : Bool) (ind_MOV : List ℕ) (ch_names : List String)
    (proj0 proj1 : Option (List (List F))) (grid_len : List ℕ) : ℕ → Bool :=
  let _ := ind_MOV
  let g0 := grid_len.getD 0 0
  let g1 := grid_len.getD 1 0
  let mov_channel := ch_names
  let Con := Con_label_of sess_right mov_channel
  let Ips := Ips_label_of sess_right mov_channel
  fun i =>
    (Con && (match proj0 with
      | some M => (nonzero_rows M).contains i
      | none => false)) ||
    (Ips && (match proj0 with
      | some M => decide (g0 ≤ i) && (nonzero_rows M).contains (i - g0)
      | none => false)) ||
    (Con && (match proj1 with
      | some M => decide (g0 * 2 ≤ i) && (nonzero_rows M).contains (i - g0 * 2)
      | none => false)) ||
    (Ips && (match proj1 with
      | some M => decide (g0 * 2 + g1 ≤ i) && (nonzero_rows M).contains (i - (g0 * 2 + g1))
      | none => false))

/-- Lines 250-294, one entry of `arr_all`: `arr_all = np.empty([94, T])` is
uninitialized, modelled by `initial`; contralateral rows `0:39` (and `78:86` when
STN data exists) and ipsilateral rows `39:78` (and `86:94`) are assigned only when
the corresponding label channel exists (`mov_channel = np.array(ch_names)[ind_MOV]`
here, line 255); all other entries keep the uninitialized contents. -/
def write_proj_data_entry (initial : ℕ → ℕ → F) (ch_names : List String)
    (sess_right : Bool) (ind_MOV : List ℕ)
    (proj_ECOG : ℕ → ℕ → F) (proj_STN : Option (ℕ → ℕ → F)) : ℕ → ℕ → F :=
  let mov_channel := ind_MOV.map (fun i => ch_names.getD i "")
  let Con := Con_label_of sess_right mov_channel
  let Ips := Ips_label_of sess_right mov_channel
  let pS := proj_STN.getD (fun _ _ => 0)
  fun r t =>
    if Con ∧ r < 39 then proj_ECOG r t
    else if Con ∧ proj_STN.isSome ∧ 78 ≤ r ∧ r < 86 then pS (r - 78) t
    else if Ips ∧ 39 ≤ r ∧ r < 78 then proj_ECOG (r - 39) t
    else if Ips ∧ proj_STN.isSome ∧ 86 ≤ r ∧ r < 94 then pS (r - 86) t
    else initial r t

/-- Lines 250-294: `write_proj_data` materialized as its list of 94 rows of
length `T` (`T = proj_ECOG.shape[1]`). -/
def write_proj_data (initial : ℕ → ℕ → F) (ch_names : List String) (sess_right : Bool)
    (ind_MOV : List ℕ) (T : ℕ) (proj_ECOG : ℕ → ℕ → F) (proj_STN : Option (ℕ → ℕ → F)) :
    List (List F) :=
  (List.range 94).map (fun r => (List.range T).map (fun t =>
    write_proj_data_entry initial ch_names sess_right ind_MOV proj_ECOG proj_STN r t))

/-- Reading the preallocated `np.zeros([Tp, ...])` feature array at integer index `j`
when rows `0 .. t-1` have been written from `store`: a negative index wraps to
`Tp + j` (numpy), and a not-yet-written row reads 0. -/
def arr_read (Tp t : ℕ) (store : ℕ → F) (j : ℤ) : F :=
  let s : ℤ := if j < 0 then j + Tp else j
  if 0 ≤ s ∧ s < (t : ℤ) then store s.toNat else 0

/-- Lines 368-374: the `n_idx` normalization window for output step `new_idx = t ≥ 1`
at loop counter `c`: `np.arange(0, new_idx)` while `c < normalization_samples`,
`np.arange(new_idx - normalization_samples, new_idx)` afterwards (the latter can
contain negative indices when `new_idx < normalization_samples`). -/
def n_idx_window (normalization_samples c t : ℕ) : List ℤ :=
  if c < normalization_samples then arange_int 0 t
  else arange_int ((t : ℤ) - normalization_samples) t

/-- Lines 349-354 and 389: the output index `new_idx` reached at loop counter `c` —
the number of earlier `c'` that were not skipped by
`downsample_idx[c'] < seglengths[0]`. -/
def new_idx_at (downsample_idx : ℕ → ℕ) (seg0 c : ℕ) : ℕ :=
  ((List.range c).filter (fun k => decide (¬ downsample_idx k < seg0))).length

/-- Lines 376-382 for one scalar (channel, band) raw feature stream `rf`:
at `new_idx = 0` the raw frame is copied; afterwards the output is
`(rf[t] - median) / median` with the median taken over the `n_idx` window of the
preallocated array. -/
def rf_median_out (Tp ns : ℕ) (rf : ℕ → F) (c t : ℕ) : FVal F :=
  if t = 0 then .fin (rf 0)
  else fdivF (rf t - npMedian ((n_idx_window ns c t).map (arr_read Tp t rf)))
    (npMedian ((n_idx_window ns c t).map (arr_read Tp t rf)))

/-- Lines 376-385 for one scalar (grid point, band) projected stream `pf` whose
activity flag is `act`: at `new_idx = 0` the whole frame is copied (active or not);
afterwards only active points are normalized and inactive points keep the
`np.zeros` value 0. -/
def pf_median_out (Tp ns : ℕ) (act : Bool) (pf : ℕ → F) (c t : ℕ) : FVal F :=
  if t = 0 then .fin (pf 0)
  else if act then
    fdivF (pf t - npMedian ((n_idx_window ns c t).map (arr_read Tp t pf)))
      (npMedian ((n_idx_window ns c t).map (arr_read Tp t pf)))
  else .fin 0

/-- Lines 397-409: the 3-dimensional branch of `append_time_dim` with lag count
`time_stamps`; output step `time_idx` (input time `time_stamps + time_idx`)
concatenates, per channel, the band vectors at times `time_ - time_point` for
`time_point = 0, ..., time_stamps - 1` (most-recent-first). -/
def append_time_dim_3d (X : List (List (List F))) (time_stamps : ℕ) :
    List (List (List F)) :=
  (List.range (X.length - time_stamps)).map (fun time_idx =>
    (List.range (X.getD 0 []).length).map (fun ch =>
      ((List.range time_stamps).map (fun time_point =>
        (X.getD (time_stamps + time_idx - time_point) []).getD ch [])).flatten))

/-- `np.clip(x, -2, 2)`. -/
def clip2 (x : F) : F := min (max x (-2)) 2

/-- Lines 431-442: `predict`. Each grid classifier may raise (modelled as
`Except.error`); inactive grid points are skipped and keep the `np.zeros` value;
the flattened clipped feature window of each active point is fed to its model.
A raised exception propagates out of the whole loop. -/
def predict (num_f_bands : ℕ) (pf_stream : List (ℕ → ℕ → F))
    (grid_classifiers : ℕ → (List F → Except Unit F)) (arr_act_grid : ℕ → Bool) :
    Except Unit (List F) :=
  (List.range 94).foldlM (fun res grid_point =>
    if arr_act_grid grid_point then do
      let y ← grid_classifiers grid_point
        ((pf_stream.map (fun frame =>
          (List.range num_f_bands).map (fun b => clip2 (frame grid_point b)))).flatten)
      pure (res.set grid_point y)
    else pure res) (List.replicate 94 (0 : F))

/-! ### General list helpers -/

theorem getD_range_map {α : Type} (f : ℕ → α) (n i : ℕ) (d : α) (h : i < n) :
    ((List.range n).map f).getD i d = f i := by
  rw [List.getD_eq_getElem?_getD, List.getElem?_map, List.getElem?_range h]
  rfl

theorem getD_map_of_lt {α β : Type} (f : α → β) (d : β) (d0 : α) :
    ∀ (l : List α) (i : ℕ), i < l.length → (l.map f).getD i d = f (l.getD i d0)
  | [], i, h => absurd h (by simp)
  | a :: l, 0, _ => rfl
  | a :: l, i + 1, h => by
    simpa using getD_map_of_lt f d d0 l i (by simpa using h)

theorem getD_mem_of_lt {α : Type} (d : α) :
    ∀ (l : List α) (i : ℕ), i < l.length → l.getD i d ∈ l
  | [], i, h => absurd h (by simp)
  | a :: l, 0, _ => List.mem_cons_self a l
  | a :: l, i + 1, h =>
    List.mem_cons_of_mem a (getD_mem_of_lt d l i (by simpa using h))

theorem fsum_map_fin (l : List F) : fsum (l.map FVal.fin) = FVal.fin l.sum := by
  induction l with
  | nil => rfl
  | cons a l ih =>
    simp only [List.map_cons, fsum, List.foldr_cons] at ih ⊢
    rw [ih, fadd, List.sum_cons]

theorem sum_map_ite_filter (p : F → Prop) [DecidablePred p] (f : F → F) (l : List F) :
    (l.map (fun d => if p d then f d else 0)).sum =
      ((l.filter (fun d => decide (p d))).map f).sum := by
  induction l with
  | nil => rfl
  | cons a l ih =>
    by_cases h : p a <;>
      simp [List.filter_cons, h, ih]

/-! ### Insertion sort and median lemmas -/

theorem insert_sorted_perm (x : F) (l : List F) : List.Perm (insert_sorted x l) (x :: l) := by
  induction l with
  | nil => rfl
  | cons y ys ih =>
    rw [insert_sorted]
    by_cases h : x ≤ y
    · rw [if_pos h]
    · rw [if_neg h]
      exact ((ih.cons y).trans (List.Perm.swap x y ys))

theorem sort_list_perm (l : List F) : List.Perm (sort_list l) l := by
  induction l with
  | nil => rfl
  | cons x xs ih =>
    exact (insert_sorted_perm x (sort_list xs)).trans (ih.cons x)

theorem npMedian_const (l : List F) (v : F) (hall : ∀ x ∈ l, x = v) (hne : l ≠ []) :
    npMedian l = v := by
  have hperm := sort_list_perm l
  have hlen : (sort_list l).length = l.length := hperm.length_eq
  have hpos : 0 < l.length := List.length_pos.mpr hne
  have hallS : ∀ x ∈ sort_list l, x = v := fun x hx => hall x (hperm.mem_iff.mp hx)
  have hget : ∀ i, i < l.length → (sort_list l).getD i 0 = v := by
    intro i hi
    exact hallS _ (getD_mem_of_lt 0 (sort_list l) i (by omega))
  rw [npMedian]
  by_cases h : l.length % 2 = 1
  · rw [if_pos h, hget _ (by omega)]
  · rw [if_neg h, hget _ (by omega), hget _ (by omega)]
    exact add_self_div_two v

/-! ### arange lemmas -/

theorem mem_arange_int (a b j : ℤ) (hab : a ≤ b) : j ∈ arange_int a b ↔ a ≤ j ∧ j < b := by
  constructor
  · intro hj
    rcases List.mem_map.mp hj with ⟨i, hi, rfl⟩
    rw [List.mem_range] at hi
    omega
  · intro h
    apply List.mem_map.mpr
    refine ⟨(j - a).toNat, ?_, ?_⟩
    · rw [List.mem_range]
      omega
    · omega

theorem length_arange_int (a b : ℤ) : (arange_int a b).length = (b - a).toNat := by
  rw [arange_int, List.length_map, List.length_range]

/-! ### Projection row-sum lemmas -/

theorem filter_map_frecipF (drow : List F) (maxd : F) (hpos : ∀ d ∈ drow, 0 < d) :
    (drow.filter (fun x => decide (x < maxd))).map frecipF =
      ((drow.filter (fun x => decide (x < maxd))).map (fun d => 1 / d)).map FVal.fin := by
  rw [List.map_map]
  apply List.map_congr_left
  intro d hd
  have hd0 : 0 < d := hpos d (List.mem_filter.mp hd).1
  simp [frecipF, Function.comp, ne_of_gt hd0]

theorem calc_proj_row_entries (drow : List F) (maxd : F) (hpos : ∀ d ∈ drow, 0 < d) :
    calc_proj_row drow maxd =
      drow.map (fun d => FVal.fin (if d < maxd
        then (1 / d) /
          ((drow.filter (fun x => decide (x < maxd))).map (fun x => 1 / x)).sum
        else 0)) := by
  apply List.map_congr_left
  intro d hd
  by_cases hlt : d < maxd
  · rw [if_pos hlt, if_pos hlt]
    have hmem : d ∈ drow.filter (fun x => decide (x < maxd)) :=
      List.mem_filter.mpr ⟨hd, by simpa using hlt⟩
    have hS : 0 < ((drow.filter (fun x => decide (x < maxd))).map (fun x => 1 / x)).sum := by
      apply List.sum_pos
      · intro x hx
        rcases List.mem_map.mp hx with ⟨y, hy, rfl⟩
        have : 0 < y := hpos y (List.mem_filter.mp hy).1
        positivity
      · intro hnil
        rw [List.map_eq_nil_iff.mp hnil] at hmem
        simp at hmem
  -- rewrite the inner sum as a finite value and compute the division
    rw [filter_map_frecipF drow maxd hpos, fsum_map_fin]
    have hd0 : 0 < d := hpos d hd
    rw [frecipF, if_neg (ne_of_gt hd0), fdivV, if_neg (ne_of_gt hS)]
  · rw [if_neg hlt, if_neg hlt]

theorem calc_proj_row_sum (drow : List F) (maxd : F) (hpos : ∀ d ∈ drow, 0 < d) :
    fsum (calc_proj_row drow maxd) =
      if ∃ d ∈ drow, d < maxd then FVal.fin 1 else FVal.fin 0 := by
  rw [calc_proj_row_entries drow maxd hpos]
  rw [show drow.map (fun d => FVal.fin (if d < maxd
        then (1 / d) /
          ((drow.filter (fun x => decide (x < maxd))).map (fun x => 1 / x)).sum
        else 0)) =
      (drow.map (fun d => if d < maxd
        then (1 / d) /
          ((drow.filter (fun x => decide (x < maxd))).map (fun x => 1 / x)).sum
        else 0)).map FVal.fin from (List.map_map FVal.fin _ drow).symm]
  rw [fsum_map_fin]
  by_cases hex : ∃ d ∈ drow, d < maxd
  · rw [if_pos hex]
    rcases hex with ⟨d, hd, hlt⟩
    have hmem : d ∈ drow.filter (fun x => decide (x < maxd)) :=
      List.mem_filter.mpr ⟨hd, by simpa using hlt⟩
    have hS : 0 < ((drow.filter (fun x => decide (x < maxd))).map (fun x => 1 / x)).sum := by
      apply List.sum_pos
      · intro x hx
        rcases List.mem_map.mp hx with ⟨y, hy, rfl⟩
        have : 0 < y := hpos y (List.mem_filter.mp hy).1
        positivity
      · intro hnil
        rw [List.map_eq_nil_iff.mp hnil] at hmem
        simp at hmem
    rw [sum_map_ite_filter (fun x => x < maxd)
      (fun d => (1 / d) /
        ((drow.filter (fun x => decide (x < maxd))).map (fun x => 1 / x)).sum) drow]
    rw [show ((drow.filter (fun x => decide (x < maxd))).map
        (fun d => (1 / d) /
          ((drow.filter (fun x => decide (x < maxd))).map (fun x => 1 / x)).sum)) =
        ((drow.filter (fun x => decide (x < maxd))).map
          (fun d => (1 / d) *
            (((drow.filter (fun x => decide (x < maxd))).map (fun x => 1 / x)).sum)⁻¹)) from by
      apply List.map_congr_left
      intro x hx
      rw [div_eq_mul_inv]]
    rw [List.sum_map_mul_right]
    rw [mul_inv_cancel₀ (ne_of_gt hS)]
  · rw [if_neg hex]
    have hall : ∀ d ∈ drow, ¬ d < maxd := by
      intro d hd hlt
      exact hex ⟨d, hd, hlt⟩
    rw [show drow.map (fun d => if d < maxd
        then (1 / d) /
          ((drow.filter (fun x => decide (x < maxd))).map (fun x => 1 / x)).sum
        else 0) = drow.map (fun _ => (0 : F)) from by
      apply List.map_congr_left
      intro d hd
      rw [if_neg (hall d hd)]]
    rw [show (drow.map (fun _ => (0 : F))).sum = 0 from by
      induction drow with
      | nil => rfl
      | cons a l ih => simp [ih]]

/-- Row sums of one location's projection matrix, in terms of the grid and the
channel coordinates. -/
theorem proj_loc_row_sum (grid0 : List Pt) (cs : List Pt) (maxd : ℝ)
    (hpos : ∀ gp ∈ grid0, ∀ ch ∈ cs, 0 < dist3 gp ch) (i : ℕ)
    (hi : i < ((distance_matrix grid0 cs).map (fun drow => calc_proj_row drow maxd)).length) :
    fsum (((distance_matrix grid0 cs).map (fun drow => calc_proj_row drow maxd)).getD i []) =
      if ∃ ch ∈ cs, dist3 (grid0.getD i ((0 : ℝ), (0 : ℝ), (0 : ℝ))) ch < maxd
      then FVal.fin 1 else FVal.fin 0 := by
  have hi1 : i < (distance_matrix grid0 cs).length := by
    simpa using hi
  have hi0 : i < grid0.length := by
    simpa [distance_matrix] using hi1
  rw [getD_map_of_lt (fun drow => calc_proj_row drow maxd) [] [] _ i hi1]
  rw [show (distance_matrix grid0 cs).getD i [] =
      cs.map (fun ch => dist3 (grid0.getD i ((0 : ℝ), (0 : ℝ), (0 : ℝ))) ch) from by
    rw [distance_matrix, getD_map_of_lt _ [] ((0 : ℝ), (0 : ℝ), (0 : ℝ)) grid0 i hi0]]
  rw [calc_proj_row_sum _ maxd (by
    intro d hd
    rcases List.mem_map.mp hd with ⟨ch, hch, rfl⟩
    exact hpos _ (getD_mem_of_lt _ grid0 i hi0) ch hch)]
  apply if_congr _ rfl rfl
  constructor
  · intro ⟨d, hd, hlt⟩
    rcases List.mem_map.mp hd with ⟨ch, hch, rfl⟩
    exact ⟨ch, hch, hlt⟩
  · intro ⟨ch, hch, hlt⟩
    exact ⟨_, List.mem_map.mpr ⟨ch, hch, rfl⟩, hlt⟩

/-- Claim C1: for every projection matrix produced by `calc_projection_matrix` —
any coordinate set, grid, hemisphere flag and positive max-distance thresholds,
with all channel-to-grid-point distances positive — every row of each structure's
`(grid_points × channels)` matrix sums to 0 exactly when no channel of that
structure lies strictly within the structure's threshold of that grid point, and
to exactly 1 (the normalized inverse-distance weights) otherwise. -/
theorem C1_projection_rows_sum_to_zero_or_one
    (coord_arr : Option (List Pt) × Option (List Pt)) (grid_ : List (List Pt))
    (sess_right : Bool) (maxE maxS : ℝ) (hE : 0 < maxE) (hS : 0 < maxS)
    (hpos1 : ∀ cs, coord_arr.1 = some cs →
      ∀ gp ∈ (grid_session_of grid_ sess_right).getD 0 [], ∀ ch ∈ cs, 0 < dist3 gp ch)
    (hpos2 : ∀ cs, coord_arr.2 = some cs →
      ∀ gp ∈ (grid_session_of grid_ sess_right).getD 1 [], ∀ ch ∈ cs, 0 < dist3 gp ch) :
    (∀ cs M, coord_arr.1 = some cs →
      (calc_projection_matrix coord_arr grid_ sess_right maxE maxS).1 = some M →
      ∀ i, i < M.length →
        fsum (M.getD i []) =
          if ∃ ch ∈ cs, dist3 (((grid_session_of grid_ sess_right).getD 0 []).getD i
              ((0 : ℝ), (0 : ℝ), (0 : ℝ))) ch < maxE
          then FVal.fin 1 else FVal.fin 0) ∧
    (∀ cs M, coord_arr.2 = some cs →
      (calc_projection_matrix coord_arr grid_ sess_right maxE maxS).2 = some M →
      ∀ i, i < M.length →
        fsum (M.getD i []) =
          if ∃ ch ∈ cs, dist3 (((grid_session_of grid_ sess_right).getD 1 []).getD i
              ((0 : ℝ), (0 : ℝ), (0 : ℝ))) ch < maxS
          then FVal.fin 1 else FVal.fin 0) := by
  constructor
  · intro cs M hcs hM i hi
    rw [calc_projection_matrix] at hM
    simp only [hcs] at hM
    rcases Option.some.inj hM with rfl
    exact proj_loc_row_sum _ cs maxE (hpos1 cs hcs) i hi
  · intro cs M hcs hM i hi
    rw [calc_projection_matrix] at hM
    simp only [hcs] at hM
    rcases Option.some.inj hM with rfl
    exact proj_loc_row_sum _ cs maxS (hpos2 cs hcs) i hi

/-- A point at distance 0: `np.linalg.norm` of the zero vector. -/
theorem dist3_self (p : Pt) : dist3 p p = 0 := by
  rw [dist3]
  norm_num

/-- The distance between the origin and `(3, 0, 0)` is 3. -/
theorem dist3_eg : dist3 ((0 : ℝ), (0 : ℝ), (0 : ℝ)) ((3 : ℝ), (0 : ℝ), (0 : ℝ)) = 3 := by
  rw [dist3]
  norm_num
  rw [show (9 : ℝ) = 3 ^ 2 from by norm_num]
  exact Real.sqrt_sq (by norm_num)

/-- Claim C1, witness: a concrete session (one ECOG channel at `(3,0,0)`, one grid
point at the origin, thresholds 20 and 10) satisfies the hypotheses, and the single
row of the resulting projection matrix sums to 1. -/
theorem C1_witness : (0:ℝ) < 20 ∧ (0:ℝ) < 10 ∧
    fsum ((((calc_projection_matrix (some [((3:ℝ), 0, 0)], none)
      [[((0:ℝ), 0, 0)], [], [], []] false 20 10).1).getD []).getD 0 []) = FVal.fin 1 := by
  have hd : dist3 ((0 : ℝ), (0 : ℝ), (0 : ℝ)) ((3 : ℝ), (0 : ℝ), (0 : ℝ)) = 3 := dist3_eg
  have hg : (grid_session_of [[((0:ℝ), 0, 0)], [], [], []] false).getD 0 [] =
      [((0 : ℝ), (0 : ℝ), (0 : ℝ))] := rfl
  refine ⟨by norm_num, by norm_num, ?_⟩
  have hpos1 : ∀ cs, (some [((3:ℝ), 0, 0)], (none : Option (List Pt))).1 = some cs →
      ∀ gp ∈ (grid_session_of [[((0:ℝ), 0, 0)], [], [], []] false).getD 0 [],
      ∀ ch ∈ cs, 0 < dist3 gp ch := by
    intro cs hcs gp hgp ch hch
    rcases Option.some.inj hcs with rfl
    rw [hg, List.mem_singleton] at hgp
    rw [List.mem_singleton] at hch
    subst hgp
    subst hch
    rw [hd]
    norm_num
  have hpos2 : ∀ cs, (some [((3:ℝ), 0, 0)], (none : Option (List Pt))).2 = some cs →
      ∀ gp ∈ (grid_session_of [[((0:ℝ), 0, 0)], [], [], []] false).getD 1 [],
      ∀ ch ∈ cs, 0 < dist3 gp ch := by
    intro cs hcs
    exact absurd hcs (by simp)
  have hmain := (C1_projection_rows_sum_to_zero_or_one
    (some [((3:ℝ), 0, 0)], none) [[((0:ℝ), 0, 0)], [], [], []] false 20 10
    (by norm_num) (by norm_num) hpos1 hpos2).1
  have hM : (calc_projection_matrix (some [((3:ℝ), 0, 0)], none)
      [[((0:ℝ), 0, 0)], [], [], []] false 20 10).1 =
      some ((distance_matrix [((0:ℝ), 0, 0)] [((3:ℝ), 0, 0)]).map
        (fun drow => calc_proj_row drow 20)) := rfl
  have hlen : ((distance_matrix [((0:ℝ), 0, 0)] [((3:ℝ), 0, 0)]).map
      (fun drow => calc_proj_row drow 20)).length = 1 := by
    simp [distance_matrix]
  have h0 := hmain [((3:ℝ), 0, 0)] _ rfl hM 0 (by rw [hlen]; norm_num)
  rw [hM, Option.getD_some, h0, if_pos ?_]
  refine ⟨((3:ℝ), (0:ℝ), (0:ℝ)), by simp, ?_⟩
  rw [hg]
  rw [show ([((0:ℝ), (0:ℝ), (0:ℝ))].getD 0 ((0:ℝ), (0:ℝ), (0:ℝ))) =
    ((0:ℝ), (0:ℝ), (0:ℝ)) from rfl]
  rw [hd]
  norm_num

/-- Claim C3 (code bug): a channel coincident with a grid point does NOT receive
weight 1.0 — `calc_projection_matrix` computes `1/0 = inf`, `sum_distances = inf`,
and the coincident channel's weight `inf/inf = NaN`, while every other channel gets
`finite/inf = 0`. Evaluated at a grid point at the origin with channels at the
origin and at `(3,0,0)`, threshold 20: the row is `[NaN, 0]`, not `[1, 0]`. -/
theorem C3_zero_distance_weight_is_nan :
    (calc_projection_matrix (some [((0:ℝ), 0, 0), ((3:ℝ), 0, 0)], none)
      [[((0:ℝ), 0, 0)], [], [], []] false 20 10).1 = some [[FVal.nan, FVal.fin 0]] := by
  have hdm : distance_matrix [((0:ℝ), 0, 0)] [((0:ℝ), 0, 0), ((3:ℝ), 0, 0)] =
      [[(0:ℝ), 3]] := by
    rw [distance_matrix]
    simp only [List.map]
    rw [dist3_self, dist3_eg]
  rw [show (calc_projection_matrix (some [((0:ℝ), 0, 0), ((3:ℝ), 0, 0)], none)
      [[((0:ℝ), 0, 0)], [], [], []] false 20 10).1 =
      some ((distance_matrix [((0:ℝ), 0, 0)] [((0:ℝ), 0, 0), ((3:ℝ), 0, 0)]).map
        (fun drow => calc_proj_row drow 20)) from rfl]
  rw [hdm]
  simp only [List.map]
  norm_num [calc_proj_row, frecipF, fdivV, fsum, fadd, List.filter]

/-- Claim C5 (code bug): for line noise 50 Hz, `apply_filter` passes
`np.arange(50, 200, 50) = [50, 100, 150]` to the notch filter — three frequencies,
not the four (`50, 100, 150, 200`) stated by the spec and by the function's own
docstring ("apply 4 notch line filters"). -/
theorem C5_notch_freqs_are_three_not_four :
    apply_filter_notch_freqs 50 = [50, 100, 150] ∧
    (apply_filter_notch_freqs 50).length = 3 := by
  have h : apply_filter_notch_freqs 50 = [50, 100, 150] := by
    unfold apply_filter_notch_freqs np_arange
    rw [show ⌈((4 * 50 - 50 : ℚ)) / 50⌉ = 3 from by norm_num]
    rw [show List.range (Int.toNat 3) = [0, 1, 2] from by decide]
    norm_num
  exact ⟨h, by rw [h]; rfl⟩

/-- Claim C7, counterexample: the claim fails as stated. For the constant-zero
feature stream, the first normalized output (step 1, window `[0]`, median 0) is
`(0 - 0) / 0 = NaN`, not 0. -/
theorem C7_counterexample_constant_zero_gives_nan :
    rf_median_out 100 1000 (fun _ => (0:ℚ)) 11 1 = FVal.nan ∧
    FVal.nan ≠ FVal.fin (0:ℚ) := by
  constructor
  · have hw : n_idx_window 1000 11 1 = [0] := by
      rw [n_idx_window, if_pos (by norm_num)]
      unfold arange_int
      norm_num [List.range_succ]
    rw [rf_median_out, if_neg (by norm_num), hw]
    norm_num [arr_read, npMedian, sort_list, insert_sorted, fdivF, fdivV]
  · simp

/-- Claim C7 as amended: if the feature stream entering normalization is constant
with a nonzero value, then every normalized output after the first time step whose
median window covers only previously written frames (loop counter `c` below
`normalization_samples`, or output step `t` at least `normalization_samples`) is
exactly 0, because the value equals its own trailing median. (A constant-zero
stream instead yields NaN from `0/0`, and in the region
`new_idx < normalization_samples ≤ c` the window wraps into unwritten zero rows.) -/
theorem C7_amended_constant_stream_normalizes_to_zero (Tp ns : ℕ) (v : F)
    (dsi : ℕ → ℕ) (seg0 c t : ℕ)
    (hv : v ≠ 0) (hns : 1 ≤ ns) (hskip : ¬ dsi c < seg0) (ht : t = new_idx_at dsi seg0 c)
    (h1 : 1 ≤ t) (hwin : c < ns ∨ ns ≤ t) :
    rf_median_out Tp ns (fun _ => v) c t = FVal.fin 0 := by
  have hread : ∀ j : ℤ, 0 ≤ j → j < (t : ℤ) → arr_read Tp t (fun _ => v) j = v := by
    intro j h0 hjt
    simp only [arr_read]
    rw [show (if j < 0 then j + (Tp : ℤ) else j) = j from if_neg (by omega)]
    rw [if_pos (⟨h0, hjt⟩ : 0 ≤ j ∧ j < (t : ℤ))]
  have hall : ∀ x ∈ (n_idx_window ns c t).map (arr_read Tp t (fun _ => v)), x = v := by
    intro x hx
    rcases List.mem_map.mp hx with ⟨j, hj, rfl⟩
    by_cases hc : c < ns
    · rw [n_idx_window, if_pos hc] at hj
      rcases (mem_arange_int 0 t j (by omega)).mp hj with ⟨hj0, hjt⟩
      exact hread j hj0 hjt
    · have hts : ns ≤ t := hwin.resolve_left hc
      rw [n_idx_window, if_neg hc] at hj
      rcases (mem_arange_int ((t : ℤ) - ns) t j (by omega)).mp hj with ⟨hj0, hjt⟩
      exact hread j (by omega) hjt
  have hne : (n_idx_window ns c t).map (arr_read Tp t (fun _ => v)) ≠ [] := by
    rw [← List.length_pos, List.length_map, n_idx_window]
    by_cases hc : c < ns
    · rw [if_pos hc, length_arange_int]
      omega
    · have hts : ns ≤ t := hwin.resolve_left hc
      rw [if_neg hc, length_arange_int]
      omega
  rw [rf_median_out, if_neg (by omega)]
  rw [npMedian_const _ v hall hne]
  rw [sub_self]
  rw [fdivF, fdivV, if_neg hv, zero_div]

/-- Claim C7, witness for the amended theorem: a concrete run (constant stream 1,
`normalization_samples = 1000`, loop counter 11 emitting output step 1) satisfies
the hypotheses and normalizes to exactly 0. -/
theorem C7_amended_witness :
    ((1:ℚ) ≠ 0 ∧ 1 ≤ 1000 ∧ ¬ (fun k => 100 * k) 11 < 1000 ∧
      1 = new_idx_at (fun k => 100 * k) 1000 11 ∧ 1 ≤ 1 ∧ (11 < 1000 ∨ 1000 ≤ 1)) ∧
    rf_median_out 100 1000 (fun _ => (1:ℚ)) 11 1 = FVal.fin 0 := by
  refine ⟨⟨by norm_num, by norm_num, by norm_num, by decide, le_refl 1, Or.inl (by norm_num)⟩, ?_⟩
  exact C7_amended_constant_stream_normalizes_to_zero 100 1000 1 (fun k => 100 * k)
    1000 11 1 (by norm_num) (by norm_num) (by norm_num) (by decide) (le_refl 1)
    (Or.inl (by norm_num))

/-- Claim C4 (code bug): at `fs = 1000 Hz`, `fs_new = 10 Hz`
(`downsample_idx[c] = 100 c`, `seglengths[0] = 1000`, so the first 10 loop steps are
skipped) and `normalization_samples = 20`, loop counter `c = 20` emits output step
`t = 10`; because the window branch tests `c < normalization_samples` instead of
`new_idx < normalization_samples`, the window is `np.arange(-10, 10)`, whose
negative half wraps to the unwritten zero rows at the end of the preallocated
array. For the constant-1 stream the code outputs `(1 - 1/2) / (1/2) = 1`, while a
median over the `min(t, ns) = 10` prior frames (all 1) would give exactly 0. -/
theorem C4_median_window_wraps_into_unwritten_rows :
    new_idx_at (fun k => 100 * k) 1000 20 = 10 ∧
    n_idx_window 20 20 10 = [-10, -9, -8, -7, -6, -5, -4, -3, -2, -1,
      0, 1, 2, 3, 4, 5, 6, 7, 8, 9] ∧
    rf_median_out 100 20 (fun _ => (1:ℚ)) 20 10 = FVal.fin 1 ∧
    fdivF ((1:ℚ) - npMedian ((arange_int 0 10).map (arr_read 100 10 (fun _ => (1:ℚ)))))
      (npMedian ((arange_int 0 10).map (arr_read 100 10 (fun _ => (1:ℚ))))) =
      FVal.fin 0 := by
  have ha : arange_int (-10) 10 = [-10, -9, -8, -7, -6, -5, -4, -3, -2, -1,
      0, 1, 2, 3, 4, 5, 6, 7, 8, 9] := by
    unfold arange_int
    rw [show ((10:ℤ) - -10).toNat = 20 from by decide]
    rw [show List.range 20 = [0,1,2,3,4,5,6,7,8,9,10,11,12,13,14,15,16,17,18,19] from by decide]
    norm_num
  have ha2 : arange_int 0 10 = [0, 1, 2, 3, 4, 5, 6, 7, 8, 9] := by
    unfold arange_int
    rw [show ((10:ℤ) - 0).toNat = 10 from by decide]
    rw [show List.range 10 = [0,1,2,3,4,5,6,7,8,9] from by decide]
    norm_num
  have hw : n_idx_window 20 20 10 = [-10, -9, -8, -7, -6, -5, -4, -3, -2, -1,
      0, 1, 2, 3, 4, 5, 6, 7, 8, 9] := by
    rw [n_idx_window, if_neg (by norm_num)]
    rw [show ((10:ℕ):ℤ) - ((20:ℕ):ℤ) = -10 from by norm_num]
    exact ha
  refine ⟨by decide, hw, ?_, ?_⟩
  · have hm : (n_idx_window 20 20 10).map (arr_read 100 10 (fun _ => (1:ℚ))) =
        [0, 0, 0, 0, 0, 0, 0, 0, 0, 0, 1, 1, 1, 1, 1, 1, 1, 1, 1, 1] := by
      rw [hw]
      norm_num [arr_read]
    have hmed : npMedian ([(0:ℚ), 0, 0, 0, 0, 0, 0, 0, 0, 0,
        1, 1, 1, 1, 1, 1, 1, 1, 1, 1]) = 1/2 := by
      norm_num [npMedian, sort_list, insert_sorted]
    rw [rf_median_out, if_neg (by norm_num), hm, hmed]
    norm_num [fdivF, fdivV]
  · have hm2 : (arange_int 0 10).map (arr_read 100 10 (fun _ => (1:ℚ))) =
        [1, 1, 1, 1, 1, 1, 1, 1, 1, 1] := by
      rw [ha2]
      norm_num [arr_read]
    have hmed2 : npMedian ([(1:ℚ), 1, 1, 1, 1, 1, 1, 1, 1, 1]) = 1 := by
      norm_num [npMedian, sort_list, insert_sorted]
    rw [hm2, hmed2]
    norm_num [fdivF, fdivV]

/-- Claim C8 (code bug): `get_active_grid_points` scans ALL channel names for
"LEFT"/"RIGHT" (line 216 uses `ch_names`, never `ind_MOV`). In a right-hemisphere
run whose only channels are the data channels "ECOG_LEFT_1" and "STN_RIGHT_1" and
which has NO movement channels at all (`ind_MOV = []`, so the movement-channel
selection is empty and contains no "LEFT"), grid point 0 is nevertheless marked
active. -/
theorem C8_label_detection_scans_all_channels :
    get_active_grid_points true [] ["ECOG_LEFT_1", "STN_RIGHT_1"]
      (some [[(1:ℚ)]]) none [1, 1, 1, 1] 0 = true ∧
    ([] : List ℕ).map (fun i => ["ECOG_LEFT_1", "STN_RIGHT_1"].getD i "") = [] ∧
    Con_label_of true (([] : List ℕ).map
      (fun i => ["ECOG_LEFT_1", "STN_RIGHT_1"].getD i "")) = false := by
  refine ⟨?_, rfl, by decide⟩
  have hnz : nonzero_rows [[(1:ℚ)]] = [0] := by
    norm_num [nonzero_rows, List.range_succ]
  simp only [get_active_grid_points, hnz]
  decide

/-- Claim C9 (code bug): `predict` has no error handling — when the classifier of
active grid point 0 raises, the whole loop raises and grid point 1's prediction is
lost (`Except.error`), instead of substituting 0 for point 0 and keeping point 1.
With non-raising classifiers the same inputs produce the full prediction vector
(0 everywhere except points 0 and 1), showing the loop would otherwise compute
every active point. -/
theorem C9_predictor_error_aborts_whole_loop :
    predict 1 [fun _ _ => (0:ℚ)]
      (fun g => if g = 0 then (fun _ => Except.error ()) else (fun _ => Except.ok 5))
      (fun g => g == 0 || g == 1) = Except.error () ∧
    predict 1 [fun _ _ => (0:ℚ)]
      (fun g => if g = 0 then (fun _ => Except.ok 3) else (fun _ => Except.ok 5))
      (fun g => g == 0 || g == 1) =
      Except.ok (((List.replicate 94 (0:ℚ)).set 0 3).set 1 5) := by
  exact ⟨rfl, rfl⟩

/-- Claim C2, counterexample: the claim fails at the first output step. In a
right-hemisphere run with channels `["ECOG_1", "MOV_LEFT"]` (contralateral label
present, ipsilateral absent), grid point 39 (first ipsilateral cortex row) is
inactive, `write_proj_data` leaves its row at the uninitialized `np.empty`
contents (here 7), and the `new_idx == 0` branch of the normalization copies that
value verbatim into `pf_data_median`: the output at time 0 is 7, not 0. -/
theorem C2_counterexample_inactive_point_nonzero_at_step_zero :
    get_active_grid_points true [1] ["ECOG_1", "MOV_LEFT"]
      (some [[(1:ℚ)]]) none [39, 8, 39, 8] 39 = false ∧
    ((write_proj_data (fun _ _ => (7:ℚ)) ["ECOG_1", "MOV_LEFT"] true [1] 1
      (fun _ _ => 5) none).getD 39 []).getD 0 0 = 7 ∧
    pf_median_out 100 1000 false (fun _ => (7:ℚ)) 10 0 = FVal.fin 7 ∧
    FVal.fin (7:ℚ) ≠ FVal.fin 0 := by
  refine ⟨?_, ?_, ?_, by simp⟩
  · have hnz : nonzero_rows [[(1:ℚ)]] = [0] := by
      norm_num [nonzero_rows, List.range_succ]
    simp only [get_active_grid_points, hnz]
    decide
  · simp only [write_proj_data, write_proj_data_entry]
    norm_num [List.range_succ]
    decide
  · rw [pf_median_out, if_pos rfl]

/-- Claim C2 as amended: for every run and every grid point marked inactive by the
active-grid-point mask, the projected normalized output is exactly 0 at every
output time step `t ≥ 1`; at `t = 0` the normalization instead copies the
`write_proj_data` frame verbatim (so inactive rows hold whatever that frame
contains, including uninitialized `np.empty` values). -/
theorem C2_amended_inactive_points_zero_after_step_zero (Tp ns : ℕ) (pf : ℕ → F)
    (c t : ℕ) (act : Bool) (h1 : 1 ≤ t) :
    pf_median_out Tp ns false pf c t = FVal.fin 0 ∧
    pf_median_out Tp ns act pf c 0 = FVal.fin (pf 0) := by
  constructor
  · rw [pf_median_out, if_neg (by omega)]
    simp
  · rw [pf_median_out, if_pos rfl]

/-- Claim C2, witness for the amended theorem at a concrete run. -/
theorem C2_amended_witness : 1 ≤ 1 ∧
    (pf_median_out 5 5 false (fun _ => (9:ℚ)) 0 1 = FVal.fin 0 ∧
      pf_median_out 5 5 true (fun _ => (9:ℚ)) 0 0 = FVal.fin 9) :=
  ⟨le_refl 1, C2_amended_inactive_points_zero_after_step_zero 5 5
    (fun _ => (9:ℚ)) 0 1 true (le_refl 1)⟩

/-- Length of a concatenation of equal-length blocks. -/
theorem length_flatten_const {α : Type} (B : ℕ) :
    ∀ (ls : List (List α)), (∀ l ∈ ls, l.length = B) →
      ls.flatten.length = ls.length * B
  | [], _ => by simp
  | a :: ls, h => by
    rw [List.flatten_cons, List.length_append, h a (List.mem_cons_self a ls),
      length_flatten_const B ls (fun l hl => h l (List.mem_cons_of_mem a hl)),
      List.length_cons]
    ring

/-- Indexing into a concatenation of equal-length blocks: position `tp * B + b`
reads entry `b` of block `tp`. -/
theorem getD_flatten_blocks {α : Type} (B : ℕ) (d : α) :
    ∀ (ls : List (List α)) (tp b : ℕ), (∀ l ∈ ls, l.length = B) →
      tp < ls.length → b < B →
      ls.flatten.getD (tp * B + b) d = (ls.getD tp []).getD b d
  | [], tp, _, _, htp, _ => absurd htp (by simp)
  | a :: ls, 0, b, h, _, hb => by
    rw [List.flatten_cons, zero_mul, zero_add,
      List.getD_append _ _ _ _ (by rw [h a (List.mem_cons_self a ls)]; exact hb)]
    rfl
  | a :: ls, tp + 1, b, h, htp, hb => by
    have ha : a.length = B := h a (List.mem_cons_self a ls)
    rw [List.flatten_cons, Nat.succ_mul]
    rw [show tp * B + B + b = a.length + (tp * B + b) from by omega]
    rw [List.getD_append_right _ _ _ _ (by omega)]
    rw [show a.length + (tp * B + b) - a.length = tp * B + b from by omega]
    rw [getD_flatten_blocks B d ls tp b
      (fun l hl => h l (List.mem_cons_of_mem a hl)) (by simpa using htp) hb]
    rfl

/-- Claim C6: for a 3-dimensional input of shape `(T, units, band_count)` with
`T > K`, `append_time_dim` with lag count `K` returns `T - K` output steps, each
per-unit vector of length `K * band_count`, and output index `i` (input time
`t = K + i`) concatenates that unit's frames most-recent-first: position
`tp * band_count + b` holds the unit's band-`b` value at time `t - tp`. -/
theorem C6_append_time_dim_shape_and_order (X : List (List (List F))) (K T C B : ℕ)
    (hT : X.length = T) (hK : K < T)
    (hC : ∀ fr ∈ X, fr.length = C)
    (hB : ∀ fr ∈ X, ∀ u ∈ fr, u.length = B) :
    (append_time_dim_3d X K).length = T - K ∧
    (∀ i, i < T - K → ((append_time_dim_3d X K).getD i []).length = C) ∧
    (∀ i ch, i < T - K → ch < C →
      (((append_time_dim_3d X K).getD i []).getD ch []).length = K * B) ∧
    (∀ i ch tp b, i < T - K → ch < C → tp < K → b < B →
      (((append_time_dim_3d X K).getD i []).getD ch []).getD (tp * B + b) 0 =
        ((X.getD (K + i - tp) []).getD ch []).getD b 0) := by
  have hX0 : (X.getD 0 []).length = C := by
    apply hC
    exact getD_mem_of_lt [] X 0 (by omega)
  have hrow : ∀ i, i < T - K → (append_time_dim_3d X K).getD i [] =
      (List.range C).map (fun ch =>
        ((List.range K).map (fun tp => (X.getD (K + i - tp) []).getD ch [])).flatten) := by
    intro i hi
    rw [append_time_dim_3d, hX0, hT]
    exact getD_range_map _ (T - K) i [] hi
  have hent : ∀ i ch, i < T - K → ch < C →
      ((append_time_dim_3d X K).getD i []).getD ch [] =
      ((List.range K).map (fun tp => (X.getD (K + i - tp) []).getD ch [])).flatten := by
    intro i ch hi hch
    rw [hrow i hi]
    exact getD_range_map _ C ch [] hch
  have hblocks : ∀ i ch, i < T - K → ch < C →
      ∀ l ∈ (List.range K).map (fun tp => (X.getD (K + i - tp) []).getD ch []),
        l.length = B := by
    intro i ch hi hch l hl
    rcases List.mem_map.mp hl with ⟨tp, htp, rfl⟩
    rw [List.mem_range] at htp
    have hfr : X.getD (K + i - tp) [] ∈ X :=
      getD_mem_of_lt [] X (K + i - tp) (by omega)
    apply hB _ hfr
    apply getD_mem_of_lt
    rw [hC _ hfr]
    exact hch
  refine ⟨?_, ?_, ?_, ?_⟩
  · rw [append_time_dim_3d, hT, List.length_map, List.length_range]
  · intro i hi
    rw [hrow i hi, List.length_map, List.length_range]
  · intro i ch hi hch
    rw [hent i ch hi hch,
      length_flatten_const B _ (hblocks i ch hi hch), List.length_map, List.length_range]
  · intro i ch tp b hi hch htp hb
    rw [hent i ch hi hch,
      getD_flatten_blocks B 0 _ tp b (hblocks i ch hi hch)
        (by rw [List.length_map, List.length_range]; exact htp) hb]
    rw [getD_range_map _ K tp [] htp]

/-- Claim C6, witness: with `K = 5`, `band_count = 4` and a 10-step single-unit
input, the assembler yields `10 - 5 = 5` output steps, each of length `20`. -/
theorem C6_witness :
    ((List.replicate 10 [[(0:ℚ), 0, 0, 0]]).length = 10 ∧ 5 < 10 ∧
      (∀ fr ∈ List.replicate 10 [[(0:ℚ), 0, 0, 0]], fr.length = 1) ∧
      (∀ fr ∈ List.replicate 10 [[(0:ℚ), 0, 0, 0]], ∀ u ∈ fr, u.length = 4)) ∧
    ((append_time_dim_3d (List.replicate 10 [[(0:ℚ), 0, 0, 0]]) 5).length = 10 - 5 ∧
    (∀ i, i < 10 - 5 →
      ((append_time_dim_3d (List.replicate 10 [[(0:ℚ), 0, 0, 0]]) 5).getD i []).length = 1) ∧
    (∀ i ch, i < 10 - 5 → ch < 1 →
      (((append_time_dim_3d (List.replicate 10 [[(0:ℚ), 0, 0, 0]]) 5).getD i
        []).getD ch []).length = 5 * 4) ∧
    (∀ i ch tp b, i < 10 - 5 → ch < 1 → tp < 5 → b < 4 →
      (((append_time_dim_3d (List.replicate 10 [[(0:ℚ), 0, 0, 0]]) 5).getD i
          []).getD ch []).getD (tp * 4 + b) 0 =
        (((List.replicate 10 [[(0:ℚ), 0, 0, 0]]).getD (5 + i - tp) []).getD ch
          []).getD b 0)) :=
  ⟨⟨by decide, by decide, by decide, by decide⟩,
    C6_append_time_dim_shape_and_order (List.replicate 10 [[(0:ℚ), 0, 0, 0]]) 5 10 1 4
      (by decide) (by decide) (by decide) (by decide)⟩

/-- Claim C10: `write_proj_data` always returns exactly 94 rows with the
hard-coded layout cortex-contra `0:39`, cortex-ipsi `39:78`, subcortex-contra
`78:86`, subcortex-ipsi `86:94`, independent of the actual grid sizes; whenever
the contralateral (resp. ipsilateral) movement channel is absent the
corresponding row segments are never assigned and keep the uninitialized
`np.empty` contents `initial`; and the `new_idx == 0` normalization step copies
the frame verbatim into the projected feature buffer. -/
theorem C10_write_proj_data_layout (initial : ℕ → ℕ → F) (ch_names : List String)
    (sess_right : Bool) (ind_MOV : List ℕ) (T : ℕ) (pE : ℕ → ℕ → F)
    (pS : Option (ℕ → ℕ → F)) :
    (write_proj_data initial ch_names sess_right ind_MOV T pE pS).length = 94 ∧
    (∀ r t, r < 94 → t < T →
      ((write_proj_data initial ch_names sess_right ind_MOV T pE pS).getD r []).getD t 0 =
        write_proj_data_entry initial ch_names sess_right ind_MOV pE pS r t) ∧
    (∀ r t, Con_label_of sess_right (ind_MOV.map (fun i => ch_names.getD i "")) = true →
      r < 39 →
      write_proj_data_entry initial ch_names sess_right ind_MOV pE pS r t = pE r t) ∧
    (∀ r t pSf,
      Con_label_of sess_right (ind_MOV.map (fun i => ch_names.getD i "")) = true →
      pS = some pSf → 78 ≤ r → r < 86 →
      write_proj_data_entry initial ch_names sess_right ind_MOV pE pS r t =
        pSf (r - 78) t) ∧
    (∀ r t, Ips_label_of sess_right (ind_MOV.map (fun i => ch_names.getD i "")) = true →
      39 ≤ r → r < 78 →
      write_proj_data_entry initial ch_names sess_right ind_MOV pE pS r t =
        pE (r - 39) t) ∧
    (∀ r t pSf,
      Ips_label_of sess_right (ind_MOV.map (fun i => ch_names.getD i "")) = true →
      pS = some pSf → 86 ≤ r → r < 94 →
      write_proj_data_entry initial ch_names sess_right ind_MOV pE pS r t =
        pSf (r - 86) t) ∧
    (∀ r t, Con_label_of sess_right (ind_MOV.map (fun i => ch_names.getD i "")) = false →
      (r < 39 ∨ (78 ≤ r ∧ r < 86)) →
      write_proj_data_entry initial ch_names sess_right ind_MOV pE pS r t =
        initial r t) ∧
    (∀ r t, Ips_label_of sess_right (ind_MOV.map (fun i => ch_names.getD i "")) = false →
      ((39 ≤ r ∧ r < 78) ∨ (86 ≤ r ∧ r < 94)) →
      write_proj_data_entry initial ch_names sess_right ind_MOV pE pS r t =
        initial r t) ∧
    (∀ (Tp ns : ℕ) (a : Bool) (c : ℕ) (s : ℕ → F),
      pf_median_out Tp ns a s c 0 = FVal.fin (s 0)) := by
  refine ⟨?_, ?_, ?_, ?_, ?_, ?_, ?_, ?_, ?_⟩
  · rw [write_proj_data, List.length_map, List.length_range]
  · intro r t hr ht
    rw [write_proj_data, getD_range_map _ 94 r [] hr, getD_range_map _ T t 0 ht]
  · intro r t hCon hr
    simp only [write_proj_data_entry]
    rw [if_pos ⟨hCon, hr⟩]
  · intro r t pSf hCon hpS hr1 hr2
    simp only [write_proj_data_entry]
    rw [if_neg (by rintro ⟨-, h⟩; omega)]
    rw [if_pos ⟨hCon, by rw [hpS]; rfl, hr1, hr2⟩]
    rw [hpS]
    rfl
  · intro r t hIps hr1 hr2
    simp only [write_proj_data_entry]
    rw [if_neg (by rintro ⟨-, h⟩; omega)]
    rw [if_neg (by rintro ⟨-, -, h, -⟩; omega)]
    rw [if_pos ⟨hIps, hr1, hr2⟩]
  · intro r t pSf hIps hpS hr1 hr2
    simp only [write_proj_data_entry]
    rw [if_neg (by rintro ⟨-, h⟩; omega)]
    rw [if_neg (by rintro ⟨-, -, -, h⟩; omega)]
    rw [if_neg (by rintro ⟨-, -, h⟩; omega)]
    rw [if_pos ⟨hIps, by rw [hpS]; rfl, hr1, hr2⟩]
    rw [hpS]
    rfl
  · intro r t hCon hr
    simp only [write_proj_data_entry]
    rcases hr with hr | ⟨hra, hrb⟩ <;>
      rw [if_neg (by rintro ⟨h, -⟩; rw [hCon] at h; exact absurd h (by simp)),
        if_neg (by rintro ⟨h, -⟩; rw [hCon] at h; exact absurd h (by simp)),
        if_neg (by rintro ⟨-, h1, h2⟩; omega),
        if_neg (by rintro ⟨-, -, h1, h2⟩; omega)]
  · intro r t hIps hr
    simp only [write_proj_data_entry]
    rcases hr with ⟨hra, hrb⟩ | ⟨hra, hrb⟩ <;>
      rw [if_neg (by rintro ⟨-, h⟩; omega),
        if_neg (by rintro ⟨-, -, h1, h2⟩; omega),
        if_neg (by rintro ⟨h, -⟩; rw [hIps] at h; exact absurd h (by simp)),
        if_neg (by rintro ⟨h, -⟩; rw [hIps] at h; exact absurd h (by simp))]
  · intro Tp ns a c s
    rw [pf_median_out, if_pos rfl]

/-- Claim C10, witness: a concrete right-hemisphere run whose only movement
channel is "MOV_RIGHT" (ipsilateral present, contralateral absent), with
`initial = 9`, cortex projection 4 and subcortex projection 6: the result has 94
rows; row 47 (ipsi cortex) is 4 and row 90 (ipsi subcortex) is 6; row 0
(contra cortex, unassigned) keeps the uninitialized value 9; and the time-0
normalization copies a frame verbatim. -/
theorem C10_witness :
    (write_proj_data (fun _ _ => (9:ℚ)) ["MOV_RIGHT"] true [0] 1 (fun _ _ => 4)
      (some (fun _ _ => 6))).length = 94 ∧
    ((write_proj_data (fun _ _ => (9:ℚ)) ["MOV_RIGHT"] true [0] 1 (fun _ _ => 4)
      (some (fun _ _ => 6))).getD 47 []).getD 0 0 = 4 ∧
    ((write_proj_data (fun _ _ => (9:ℚ)) ["MOV_RIGHT"] true [0] 1 (fun _ _ => 4)
      (some (fun _ _ => 6))).getD 90 []).getD 0 0 = 6 ∧
    ((write_proj_data (fun _ _ => (9:ℚ)) ["MOV_RIGHT"] true [0] 1 (fun _ _ => 4)
      (some (fun _ _ => 6))).getD 0 []).getD 0 0 = 9 ∧
    pf_median_out 5 5 true (fun _ => (3:ℚ)) 0 0 = FVal.fin 3 := by
  obtain ⟨h1, h2, hcon39, hconSTN, hips, hipsSTN, hnoCon, hnoIps, hcopy⟩ :=
    C10_write_proj_data_layout (fun _ _ => (9:ℚ)) ["MOV_RIGHT"] true [0] 1
      (fun _ _ => 4) (some (fun _ _ => 6))
  have hCon : Con_label_of true (([0] : List ℕ).map
      (fun i => ["MOV_RIGHT"].getD i "")) = false := by decide
  have hIps : Ips_label_of true (([0] : List ℕ).map
      (fun i => ["MOV_RIGHT"].getD i "")) = true := by decide
  refine ⟨h1, ?_, ?_, ?_, hcopy 5 5 true 0 (fun _ => 3)⟩
  · rw [h2 47 0 (by norm_num) (by norm_num), hips 47 0 hIps (by norm_num) (by norm_num)]
  · rw [h2 90 0 (by norm_num) (by norm_num),
      hipsSTN 90 0 (fun _ _ => 6) hIps rfl (by norm_num) (by norm_num)]
  · rw [h2 0 0 (by norm_num) (by norm_num), hnoCon 0 0 hCon (Or.inl (by norm_num))]
